import Mathlib

/-!
Shallow embedding of the time-aggregation and compliance-status engine of
`connecteam_api.py` (functions `get_weekly_totals_by_timeclock_id` and
`get_employee_status_by_timeclock_id`), together with theorems checking the
specification's claims against it.

Modelling conventions:
* Dates are `Int` values counting days since 1970-01-01 (which was a Thursday,
  so `weekday d = (d + 3) % 7` reproduces Python's `date.weekday()`,
  Monday = 0).
* Timestamps are `Int` epoch seconds; an optional JSON timestamp field is an
  `Option Int`, and Python truthiness (`if st:`) makes both `None` and `0`
  falsy, captured by `truthy`.
* The external HTTP query (`requests.get` + `raise_for_status`) is a function
  parameter `fetch : Int → Int → Except FetchError (List UserDayActivity)`
  taking the clock id and the date; a `.error` value models a raised
  `HTTPError`.
* `USER_MAP` and the time-zone-dependent `format_time_utc_timestamp` are
  passed in as function parameters (`user_map`, `fmt_time`); the wall-clock
  instants captured by `datetime.now` are explicit `now_ts` parameters (the
  source captures one inside the weekly aggregator and a separate one in the
  daily engine).
-/

/-- Error raised by `resp.raise_for_status()` on a failed external fetch. -/
structure FetchError where
  msg : String
deriving DecidableEq

/-- Python truthiness of an optional integer field: `None` and `0` are falsy. -/
def truthy : Option Int → Bool
  | none => false
  | some v => v != 0

/-- Python `en or now_ts` for an optional int `en`: the value when truthy,
otherwise the fallback. -/
def orNow : Option Int → Int → Int
  | some v, d => if v != 0 then v else d
  | none, d => d

/-- A raw shift record `{start: {timestamp}, end?: {timestamp}}`; an absent or
null timestamp is `none`. -/
structure RawShift where
  start_timestamp : Option Int
  end_timestamp : Option Int
deriving DecidableEq

/-- A raw manual-break record, same shape as a shift. -/
structure RawBreak where
  start_timestamp : Option Int
  end_timestamp : Option Int
deriving DecidableEq

/-- One user's activity for one day, as returned under
`timeActivitiesByUsers`. -/
structure UserDayActivity where
  userId : Nat
  shifts : List RawShift
  manualBreaks : List RawBreak
deriving DecidableEq

/-- `format_duration`: seconds as `H:MM`, Python floor division and
nonnegative remainder. -/
def format_duration (seconds : Int) : String :=
  let hours := Int.fdiv seconds 3600
  let minutes := Int.fdiv (seconds % 3600) 60
  toString hours ++ ":" ++ (if minutes < 10 then "0" ++ toString minutes else toString minutes)

/-- One step of the weekly shift fold (source lines 93-97):
`if st: total_secs += (en or now_ts) - st`. -/
def weeklyShiftStep (now_ts : Int) (total_secs : Int) (shift : RawShift) : Int :=
  if truthy shift.start_timestamp then
    total_secs + (orNow shift.end_timestamp now_ts - shift.start_timestamp.getD 0)
  else total_secs

/-- Weekly aggregator, per-user shift total (source lines 92-97). -/
def weeklyShiftSecs (now_ts : Int) (shifts : List RawShift) : Int :=
  shifts.foldl (weeklyShiftStep now_ts) 0

/-- One step of the completed-break sum (source lines 98-102): breaks with
both endpoints truthy contribute `end - start`. -/
def breakSecsStep (break_secs : Int) (br : RawBreak) : Int :=
  if truthy br.start_timestamp && truthy br.end_timestamp then
    break_secs + (br.end_timestamp.getD 0 - br.start_timestamp.getD 0)
  else break_secs

/-- Weekly aggregator, completed-break sum (source lines 98-102). -/
def completedBreakSecs (breaks : List RawBreak) : Int :=
  breaks.foldl breakSecsStep 0

/-- Weekly aggregator, net seconds for one user-day (source line 103):
`max(0, total_secs - break_secs)`. -/
def weeklyNet (now_ts : Int) (ua : UserDayActivity) : Int :=
  max 0 (weeklyShiftSecs now_ts ua.shifts - completedBreakSecs ua.manualBreaks)

/-- A user's summary entry before the final `dailyOver8`/`weekOver40` pass:
`{"dailySecs": {...}, "weeklySecs": n}`. -/
structure WeeklyEntryRaw where
  dailySecs : Int → Option Int
  weeklySecs : Int

/-- A finalized weekly summary entry. -/
structure WeeklyEntry where
  dailySecs : Int → Option Int
  weeklySecs : Int
  dailyOver8 : Int → Option Bool
  weekOver40 : Bool

/-- `summary.setdefault(uid, {"dailySecs": {}, "weeklySecs": 0})`'s default. -/
def emptyEntry : WeeklyEntryRaw := ⟨fun _ => none, 0⟩

/-- Source lines 90-107, one user of one day: store the day's net seconds
under the date key and add them to the running weekly total. -/
def processUser (now_ts : Int) (ds : Int) (summary : Nat → Option WeeklyEntryRaw)
    (ua : UserDayActivity) : Nat → Option WeeklyEntryRaw :=
  let net := weeklyNet now_ts ua
  let entry := (summary ua.userId).getD emptyEntry
  fun uid => if uid = ua.userId then
      some ⟨fun d => if d = ds then some net else entry.dailySecs d, entry.weeklySecs + net⟩
    else summary uid

/-- Fold one fetched day (`users_data`) into the summary. -/
def processDay (now_ts : Int) (ds : Int) (summary : Nat → Option WeeklyEntryRaw)
    (users_data : List UserDayActivity) : Nat → Option WeeklyEntryRaw :=
  users_data.foldl (processUser now_ts ds) summary

/-- Python `date.weekday()` on a day count since 1970-01-01 (a Thursday). -/
def weekday (d : Int) : Int := (d + 3) % 7

/-- The `for day_offset in range(7)` loop of source lines 81-107: fetch each
day and fold it in; a failed fetch aborts the whole aggregation. -/
def weeklyLoop (fetch : Int → Int → Except FetchError (List UserDayActivity))
    (clock_id : Int) (now_ts : Int) (week_start : Int) :
    List Int → (Nat → Option WeeklyEntryRaw) →
    Except FetchError (Nat → Option WeeklyEntryRaw)
  | [], summary => .ok summary
  | day_offset :: rest, summary =>
    match fetch clock_id (week_start + day_offset) with
    | .error e => .error e
    | .ok users_data =>
      weeklyLoop fetch clock_id now_ts week_start rest
        (processDay now_ts (week_start + day_offset) summary users_data)

/-- Final pass (source lines 109-113): derive `dailyOver8` and `weekOver40`. -/
def finalizeEntry (e : WeeklyEntryRaw) : WeeklyEntry :=
  ⟨e.dailySecs, e.weeklySecs,
   fun d => (e.dailySecs d).map (fun secs => decide (secs ≥ 8*3600)),
   decide (e.weeklySecs > 40*3600)⟩

/-- `get_weekly_totals_by_timeclock_id` (source lines 73-115). -/
def get_weekly_totals_by_timeclock_id
    (fetch : Int → Int → Except FetchError (List UserDayActivity))
    (clock_id : Int) (week_ending : Int) (now_ts : Int) :
    Except FetchError (Nat → Option WeeklyEntry) :=
  let week_start := week_ending - weekday week_ending
  match weeklyLoop fetch clock_id now_ts week_start [0, 1, 2, 3, 4, 5, 6] (fun _ => none) with
  | .error e => .error e
  | .ok summary => .ok (fun uid => (summary uid).map finalizeEntry)

/-- One step of the daily shift walk (source lines 145-153): a shift with
truthy start and truthy end adds `en - st`; truthy start without truthy end
becomes the current open segment (last wins) and adds `now_ts - st`. -/
def shiftStep (now_ts : Int) (acc : Int × Option Int) (shift : RawShift) : Int × Option Int :=
  if truthy shift.start_timestamp then
    let st := shift.start_timestamp.getD 0
    if truthy shift.end_timestamp then
      (acc.1 + (shift.end_timestamp.getD 0 - st), acc.2)
    else
      (acc.1 + (now_ts - st), some st)
  else acc

/-- Daily engine, shift walk (source lines 143-153): returns
`(total_secs, current_start_ts)`. -/
def accumulateShifts (now_ts : Int) (shifts : List RawShift) : Int × Option Int :=
  shifts.foldl (shiftStep now_ts) (0, none)

/-- One step of the daily break walk (source lines 157-163): a truthy start
without truthy end sets `on_break`; both truthy adds `be - bs`. -/
def breakStep (acc : Int × Bool) (br : RawBreak) : Int × Bool :=
  let bs := truthy br.start_timestamp
  let be := truthy br.end_timestamp
  let on_break := if bs && !be then true else acc.2
  let break_secs :=
    if bs && be then acc.1 + (br.end_timestamp.getD 0 - br.start_timestamp.getD 0)
    else acc.1
  (break_secs, on_break)

/-- Daily engine, break walk (source lines 155-163): returns
`(break_secs, on_break)`. -/
def accumulateBreaks (breaks : List RawBreak) : Int × Bool :=
  breaks.foldl breakStep (0, false)

/-- The employee dict as first appended (source lines 198-209), including the
internal `_segmentSecs` sort key. -/
structure EmployeeFull where
  name : String
  currentSegmentStart : Option String
  currentTimeOnClock : String
  segmentSecs : Int
  totalTimeOnClock : String
  otToday : String
  breakTaken : String
  status : String
  lunchStatus : String
  lunchClass : String
deriving DecidableEq

/-- The emitted employee dict after `e.pop("_segmentSecs", None)`. -/
structure Employee where
  name : String
  currentSegmentStart : Option String
  currentTimeOnClock : String
  totalTimeOnClock : String
  otToday : String
  breakTaken : String
  status : String
  lunchStatus : String
  lunchClass : String
deriving DecidableEq

/-- Source lines 212-213: drop the internal sort key before emitting. -/
def stripSegmentSecs (e : EmployeeFull) : Employee :=
  ⟨e.name, e.currentSegmentStart, e.currentTimeOnClock, e.totalTimeOnClock,
   e.otToday, e.breakTaken, e.status, e.lunchStatus, e.lunchClass⟩

/-- The body of the per-user loop of the daily engine
(source lines 137-209), for one user with a nonempty shift list. -/
def buildEmployee (user_map : Nat → Option String) (fmt_time : Int → String)
    (weekly : Nat → Option WeeklyEntry) (now_ts : Int) (ua : UserDayActivity) :
    EmployeeFull :=
  let acc := accumulateShifts now_ts ua.shifts
  let total_secs := acc.1
  let current_start_ts := acc.2
  let accb := accumulateBreaks ua.manualBreaks
  let break_secs := accb.1
  let on_break := accb.2
  let net_daily_secs := max 0 (total_secs - break_secs)
  let daily_ot := max 0 (net_daily_secs - 8*3600)
  let weekly_secs := ((weekly ua.userId).map WeeklyEntry.weeklySecs).getD 0
  let weekly_ot := max 0 (weekly_secs - 40*3600)
  let ot_secs := max daily_ot weekly_ot
  let lunch_status :=
    if break_secs > 0 then "Taken"
    else if total_secs < 4*3600 then "Not Yet Due"
    else if total_secs < 5*3600 then "Due Now"
    else "Overdue by " ++ format_duration (total_secs - 5*3600)
  let lunch_class :=
    if break_secs > 0 then "lunch-ok"
    else if total_secs < 4*3600 then "lunch-ok"
    else if total_secs < 5*3600 then "lunch-due"
    else "lunch-overdue"
  let status :=
    if on_break then "On Lunch"
    else if truthy current_start_ts then "Clocked In" else "Off"
  let current_time_on_clock :=
    if truthy current_start_ts then format_duration (now_ts - current_start_ts.getD 0)
    else "0:00"
  let current_segment_start :=
    if truthy current_start_ts then some (fmt_time (current_start_ts.getD 0)) else none
  let segment_secs :=
    if truthy current_start_ts then now_ts - current_start_ts.getD 0 else 0
  ⟨(user_map ua.userId).getD (toString ua.userId), current_segment_start,
   current_time_on_clock, segment_secs, format_duration net_daily_secs,
   format_duration ot_secs, format_duration break_secs, status, lunch_status,
   lunch_class⟩

/-- Stable descending insertion on the `_segmentSecs` key: the new element
goes in front of the first element whose key is `≤` its own, so among equal
keys earlier input elements stay first, exactly as Python's stable sort. -/
def insertDesc (e : EmployeeFull) : List EmployeeFull → List EmployeeFull
  | [] => [e]
  | x :: xs => if x.segmentSecs ≤ e.segmentSecs then e :: x :: xs else x :: insertDesc e xs

/-- Source line 211: `employees.sort(key=lambda e: e["_segmentSecs"],
reverse=True)` — Python's stable sort, descending on the key; any stable
sort computes the same list, modelled here by stable insertion sort. -/
def sortEmployees (employees : List EmployeeFull) : List EmployeeFull :=
  employees.foldr insertDesc []

/-- `get_employee_status_by_timeclock_id` (source lines 117-215). -/
def get_employee_status_by_timeclock_id
    (fetch : Int → Int → Except FetchError (List UserDayActivity))
    (user_map : Nat → Option String) (fmt_time : Int → String)
    (within_business_hours : Bool) (clock_id : Int) (date : Int)
    (now_ts_weekly : Int) (now_ts : Int) : Except FetchError (List Employee) :=
  if !within_business_hours then .ok []
  else
    match fetch clock_id date with
    | .error e => .error e
    | .ok activities =>
      match get_weekly_totals_by_timeclock_id fetch clock_id date now_ts_weekly with
      | .error e => .error e
      | .ok weekly =>
        let employees := (activities.filter (fun ua => !ua.shifts.isEmpty)).map
          (buildEmployee user_map fmt_time weekly now_ts)
        .ok ((sortEmployees employees).map stripSegmentSecs)

/-!
Guarded re-readings of the four timestamp folds, for the `MissingFieldError`
safety claim: every integer actually used in arithmetic is read through
`Option.bind`, so the whole fold returns `none` if any code path were to use
an absent field. The theorems below show they always return `some` of the
plain folds: the source's explicit presence checks (`if st:` etc.) shield
every arithmetic use of a timestamp.
-/

/-- `weeklyShiftStep` with the used start timestamp read via `bind`. -/
def weeklyShiftStepChecked (now_ts : Int) (total_secs : Int) (shift : RawShift) : Option Int :=
  if truthy shift.start_timestamp then
    shift.start_timestamp.bind (fun st =>
      some (total_secs + (orNow shift.end_timestamp now_ts - st)))
  else some total_secs

/-- `weeklyShiftSecs` with every used timestamp read via `bind`. -/
def weeklyShiftSecsChecked (now_ts : Int) (shifts : List RawShift) : Option Int :=
  shifts.foldlM (weeklyShiftStepChecked now_ts) 0

/-- `breakSecsStep` with both used endpoints read via `bind`. -/
def breakSecsStepChecked (break_secs : Int) (br : RawBreak) : Option Int :=
  if truthy br.start_timestamp && truthy br.end_timestamp then
    br.start_timestamp.bind (fun bs =>
      br.end_timestamp.bind (fun be => some (break_secs + (be - bs))))
  else some break_secs

/-- `completedBreakSecs` with every used timestamp read via `bind`. -/
def completedBreakSecsChecked (breaks : List RawBreak) : Option Int :=
  breaks.foldlM breakSecsStepChecked 0

/-- `shiftStep` with every used timestamp read via `bind`. -/
def shiftStepChecked (now_ts : Int) (acc : Int × Option Int) (shift : RawShift) :
    Option (Int × Option Int) :=
  if truthy shift.start_timestamp then
    shift.start_timestamp.bind (fun st =>
      if truthy shift.end_timestamp then
        shift.end_timestamp.bind (fun en => some (acc.1 + (en - st), acc.2))
      else some (acc.1 + (now_ts - st), some st))
  else some acc

/-- `accumulateShifts` with every used timestamp read via `bind`. -/
def accumulateShiftsChecked (now_ts : Int) (shifts : List RawShift) :
    Option (Int × Option Int) :=
  shifts.foldlM (shiftStepChecked now_ts) (0, none)

/-- `breakStep` with every used timestamp read via `bind`. -/
def breakStepChecked (acc : Int × Bool) (br : RawBreak) : Option (Int × Bool) :=
  let bs := truthy br.start_timestamp
  let be := truthy br.end_timestamp
  let on_break := if bs && !be then true else acc.2
  if bs && be then
    br.start_timestamp.bind (fun bsv =>
      br.end_timestamp.bind (fun bev => some (acc.1 + (bev - bsv), on_break)))
  else some (acc.1, on_break)

/-- `accumulateBreaks` with every used timestamp read via `bind`. -/
def accumulateBreaksChecked (breaks : List RawBreak) : Option (Int × Bool) :=
  breaks.foldlM breakStepChecked (0, false)

/-! ### Basic lemmas about truthiness and the step functions -/

theorem truthy_eq_true_iff (o : Option Int) :
    truthy o = true ↔ ∃ v, o = some v ∧ v ≠ 0 := by
  cases o with
  | none => simp [truthy]
  | some v => simp [truthy]

theorem truthy_some_getD (o : Option Int) (h : truthy o = true) :
    o = some (o.getD 0) := by
  cases o with
  | none => simp [truthy] at h
  | some v => simp

theorem truthy_getD_ne_zero (o : Option Int) (h : truthy o = true) :
    o.getD 0 ≠ 0 := by
  cases o with
  | none => simp [truthy] at h
  | some v => simpa [truthy] using h

theorem orNow_eq (o : Option Int) (d : Int) :
    orNow o d = if truthy o then o.getD 0 else d := by
  cases o with
  | none => simp [orNow, truthy]
  | some v => by_cases hv : v = 0 <;> simp [orNow, truthy, hv]

/-- A monadic fold whose step always succeeds computes `some` of the plain
fold. -/
theorem foldlM_eq_some_foldl {α β : Type} (f : β → α → Option β) (g : β → α → β)
    (hfg : ∀ acc x, f acc x = some (g acc x)) (l : List α) (init : β) :
    l.foldlM f init = some (l.foldl g init) := by
  induction l generalizing init with
  | nil => rfl
  | cons x xs ih => simp [List.foldlM_cons, hfg, List.foldl_cons, ih]

theorem weeklyShiftStepChecked_eq (now_ts total_secs : Int) (shift : RawShift) :
    weeklyShiftStepChecked now_ts total_secs shift
      = some (weeklyShiftStep now_ts total_secs shift) := by
  unfold weeklyShiftStepChecked weeklyShiftStep
  by_cases h : truthy shift.start_timestamp = true
  · obtain ⟨v, hv, hv0⟩ := (truthy_eq_true_iff _).mp h
    simp [hv, truthy, hv0]
  · simp [h]

theorem breakSecsStepChecked_eq (break_secs : Int) (br : RawBreak) :
    breakSecsStepChecked break_secs br = some (breakSecsStep break_secs br) := by
  unfold breakSecsStepChecked breakSecsStep
  by_cases h : (truthy br.start_timestamp && truthy br.end_timestamp) = true
  · obtain ⟨hs, he⟩ := Bool.and_eq_true_iff.mp h
    obtain ⟨v, hv, hv0⟩ := (truthy_eq_true_iff _).mp hs
    obtain ⟨w, hw, hw0⟩ := (truthy_eq_true_iff _).mp he
    simp [hv, hw, truthy, hv0, hw0]
  · simp [h]

theorem shiftStepChecked_eq (now_ts : Int) (acc : Int × Option Int) (shift : RawShift) :
    shiftStepChecked now_ts acc shift = some (shiftStep now_ts acc shift) := by
  unfold shiftStepChecked shiftStep
  by_cases h : truthy shift.start_timestamp = true
  · obtain ⟨v, hv, hv0⟩ := (truthy_eq_true_iff _).mp h
    have htv : truthy (some v) = true := by simp [truthy, hv0]
    by_cases he : truthy shift.end_timestamp = true
    · obtain ⟨w, hw, hw0⟩ := (truthy_eq_true_iff _).mp he
      simp [hv, hw, truthy, hv0, hw0]
    · simp [hv, htv, he]
  · simp [h]

theorem breakStepChecked_eq (acc : Int × Bool) (br : RawBreak) :
    breakStepChecked acc br = some (breakStep acc br) := by
  unfold breakStepChecked breakStep
  by_cases h : (truthy br.start_timestamp && truthy br.end_timestamp) = true
  · obtain ⟨hs, he⟩ := Bool.and_eq_true_iff.mp h
    obtain ⟨v, hv, hv0⟩ := (truthy_eq_true_iff _).mp hs
    obtain ⟨w, hw, hw0⟩ := (truthy_eq_true_iff _).mp he
    simp [hv, hw, truthy, hv0, hw0]
  · simp [h]

/-! ### Zero timestamps behave like absent ones (step level) -/

theorem truthy_some_zero : truthy (some 0) = false := by simp [truthy]

theorem truthy_some_of_ne (v : Int) (hv0 : v ≠ 0) : truthy (some v) = true := by
  simp [truthy, hv0]

theorem weeklyShiftStep_zero_start (now_ts total_secs : Int) (s : RawShift)
    (h : s.start_timestamp = some 0) :
    weeklyShiftStep now_ts total_secs s = total_secs := by
  simp [weeklyShiftStep, h, truthy]

theorem shiftStep_zero_start (now_ts : Int) (acc : Int × Option Int) (s : RawShift)
    (h : s.start_timestamp = some 0) :
    shiftStep now_ts acc s = acc := by
  simp [shiftStep, h, truthy]

/-! ### The daily break walk, componentwise -/

theorem breakStep_fst (acc : Int × Bool) (br : RawBreak) :
    (breakStep acc br).1 = breakSecsStep acc.1 br := rfl

theorem foldl_breakStep_fst (l : List RawBreak) (x : Int) (f : Bool) :
    (l.foldl breakStep (x, f)).1 = l.foldl breakSecsStep x := by
  induction l generalizing x f with
  | nil => rfl
  | cons b bs ih =>
    have hstep : breakStep (x, f) b
        = (breakSecsStep x b, (breakStep (x, f) b).2) := by
      exact (Prod.mk.eta).symm
    rw [List.foldl_cons, List.foldl_cons, hstep, ih]

theorem accumulateBreaks_fst (l : List RawBreak) :
    (accumulateBreaks l).1 = completedBreakSecs l :=
  foldl_breakStep_fst l 0 false

/-- An open break (truthy start, falsy end) in a break list. -/
def isOpenBreak (br : RawBreak) : Bool :=
  truthy br.start_timestamp && !truthy br.end_timestamp

theorem breakStep_snd (acc : Int × Bool) (br : RawBreak) :
    (breakStep acc br).2 = (acc.2 || isOpenBreak br) := by
  unfold breakStep isOpenBreak
  by_cases h : (truthy br.start_timestamp && !truthy br.end_timestamp) = true
  · simp [h]
  · simp [h]

theorem foldl_breakStep_snd (l : List RawBreak) (acc : Int × Bool) :
    (l.foldl breakStep acc).2 = (acc.2 || l.any isOpenBreak) := by
  induction l generalizing acc with
  | nil => simp
  | cons b bs ih =>
    rw [List.foldl_cons, ih, breakStep_snd, List.any_cons, Bool.or_assoc]

theorem accumulateBreaks_snd (l : List RawBreak) :
    (accumulateBreaks l).2 = l.any isOpenBreak := by
  unfold accumulateBreaks
  rw [foldl_breakStep_snd]
  simp

/-! ### The daily shift walk, componentwise -/

theorem shiftStep_fst (now_ts : Int) (acc : Int × Option Int) (s : RawShift) :
    (shiftStep now_ts acc s).1 = weeklyShiftStep now_ts acc.1 s := by
  unfold shiftStep weeklyShiftStep
  by_cases h : truthy s.start_timestamp = true
  · by_cases he : truthy s.end_timestamp = true <;> simp [h, he, orNow_eq]
  · simp [h]

theorem foldl_shiftStep_fst (now_ts : Int) (l : List RawShift) (x : Int) (c : Option Int) :
    (l.foldl (shiftStep now_ts) (x, c)).1 = l.foldl (weeklyShiftStep now_ts) x := by
  induction l generalizing x c with
  | nil => rfl
  | cons s ss ih =>
    have hstep : shiftStep now_ts (x, c) s
        = (weeklyShiftStep now_ts x s, (shiftStep now_ts (x, c) s).2) := by
      rw [← shiftStep_fst now_ts (x, c) s]
    rw [List.foldl_cons, List.foldl_cons, hstep, ih]

/-- The daily engine's gross total agrees with the weekly aggregator's. -/
theorem accumulateShifts_fst (now_ts : Int) (l : List RawShift) :
    (accumulateShifts now_ts l).1 = weeklyShiftSecs now_ts l :=
  foldl_shiftStep_fst now_ts l 0 none

/-- An open shift (truthy start, falsy end) in a shift list. -/
def isOpenShift (s : RawShift) : Bool :=
  truthy s.start_timestamp && !truthy s.end_timestamp

/-- The start timestamp recorded for the last open shift, if any. -/
def lastOpenStart (l : List RawShift) : Option Int :=
  (l.reverse.find? isOpenShift).map (fun s => s.start_timestamp.getD 0)

theorem shiftStep_snd_open (now_ts : Int) (acc : Int × Option Int) (s : RawShift)
    (h : isOpenShift s = true) :
    (shiftStep now_ts acc s).2 = some (s.start_timestamp.getD 0) := by
  obtain ⟨hs, he⟩ := Bool.and_eq_true_iff.mp h
  simp only [Bool.not_eq_true'] at he
  simp [shiftStep, hs, he]

theorem shiftStep_snd_closed (now_ts : Int) (acc : Int × Option Int) (s : RawShift)
    (h : isOpenShift s = false) :
    (shiftStep now_ts acc s).2 = acc.2 := by
  unfold shiftStep
  by_cases hs : truthy s.start_timestamp = true
  · have he : truthy s.end_timestamp = true := by
      simpa [isOpenShift, hs] using h
    simp [hs, he]
  · simp [hs]

theorem foldl_shiftStep_snd (now_ts : Int) (l : List RawShift) (acc : Int × Option Int) :
    (l.foldl (shiftStep now_ts) acc).2 = (lastOpenStart l).or acc.2 := by
  induction l generalizing acc with
  | nil => simp [lastOpenStart]
  | cons s ss ih =>
    rw [List.foldl_cons, ih]
    unfold lastOpenStart
    rw [List.reverse_cons, List.find?_append]
    cases hfind : ss.reverse.find? isOpenShift with
    | some t => simp
    | none =>
      simp only [Option.none_or, Option.map, List.find?]
      cases hopen : isOpenShift s with
      | true => simp [shiftStep_snd_open now_ts acc s hopen]
      | false => simp [shiftStep_snd_closed now_ts acc s hopen]

theorem accumulateShifts_snd (now_ts : Int) (l : List RawShift) :
    (accumulateShifts now_ts l).2 = lastOpenStart l := by
  unfold accumulateShifts
  rw [foldl_shiftStep_snd]
  exact Option.or_none

theorem lastOpenStart_ne_zero (l : List RawShift) (v : Int)
    (h : lastOpenStart l = some v) : v ≠ 0 := by
  unfold lastOpenStart at h
  cases hfind : l.reverse.find? isOpenShift with
  | none => rw [hfind] at h; simp at h
  | some s =>
    rw [hfind] at h
    have hv : s.start_timestamp.getD 0 = v := by simpa using h
    have hopen : isOpenShift s = true := List.find?_some hfind
    obtain ⟨hs, _⟩ := Bool.and_eq_true_iff.mp hopen
    rw [← hv]
    exact truthy_getD_ne_zero _ hs

theorem truthy_lastOpenStart_iff (l : List RawShift) :
    truthy (lastOpenStart l) = true ↔ ∃ s ∈ l, isOpenShift s = true := by
  constructor
  · intro h
    obtain ⟨v, hv, _⟩ := (truthy_eq_true_iff _).mp h
    unfold lastOpenStart at hv
    cases hfind : l.reverse.find? isOpenShift with
    | none => rw [hfind] at hv; simp at hv
    | some s =>
      exact ⟨s, List.mem_reverse.mp (List.mem_of_find?_eq_some hfind),
        List.find?_some hfind⟩
  · intro ⟨s, hmem, hopen⟩
    have : (l.reverse.find? isOpenShift).isSome = true :=
      List.find?_isSome.mpr ⟨s, List.mem_reverse.mpr hmem, hopen⟩
    obtain ⟨t, ht⟩ := Option.isSome_iff_exists.mp this
    have hlast : lastOpenStart l = some (t.start_timestamp.getD 0) := by
      unfold lastOpenStart; rw [ht]; rfl
    rw [hlast]
    exact (truthy_eq_true_iff _).mpr
      ⟨_, rfl, lastOpenStart_ne_zero l _ hlast⟩

/-! ### Claim C3: absent optional fields are handled by presence checks -/

theorem accumulateShiftsChecked_eq (now_ts : Int) (shifts : List RawShift) :
    accumulateShiftsChecked now_ts shifts = some (accumulateShifts now_ts shifts) :=
  foldlM_eq_some_foldl _ _ (shiftStepChecked_eq now_ts) shifts (0, none)

theorem accumulateBreaksChecked_eq (breaks : List RawBreak) :
    accumulateBreaksChecked breaks = some (accumulateBreaks breaks) :=
  foldlM_eq_some_foldl _ _ breakStepChecked_eq breaks (0, false)

theorem weeklyShiftSecsChecked_eq (now_ts : Int) (shifts : List RawShift) :
    weeklyShiftSecsChecked now_ts shifts = some (weeklyShiftSecs now_ts shifts) :=
  foldlM_eq_some_foldl _ _ (weeklyShiftStepChecked_eq now_ts) shifts 0

theorem completedBreakSecsChecked_eq (breaks : List RawBreak) :
    completedBreakSecsChecked breaks = some (completedBreakSecs breaks) :=
  foldlM_eq_some_foldl _ _ breakSecsStepChecked_eq breaks 0

/-- C3: for every day's activity input — including any shift or break whose
optional start or end timestamp is absent — the four timestamp folds of the
Daily Status Engine (`accumulateShifts`, `accumulateBreaks`) and the Weekly
Aggregator (`weeklyShiftSecs`, `completedBreakSecs`) run their guarded
re-readings to a `some` result equal to the plain fold: every arithmetic use
of a timestamp sits behind an explicit presence check, so no absent field is
ever dereferenced and no exception path exists. -/
theorem absent_fields_never_raise (now_ts : Int) (shifts : List RawShift)
    (breaks : List RawBreak) :
    accumulateShiftsChecked now_ts shifts = some (accumulateShifts now_ts shifts)
    ∧ accumulateBreaksChecked breaks = some (accumulateBreaks breaks)
    ∧ weeklyShiftSecsChecked now_ts shifts = some (weeklyShiftSecs now_ts shifts)
    ∧ completedBreakSecsChecked breaks = some (completedBreakSecs breaks) :=
  ⟨accumulateShiftsChecked_eq now_ts shifts, accumulateBreaksChecked_eq breaks,
   weeklyShiftSecsChecked_eq now_ts shifts, completedBreakSecsChecked_eq breaks⟩

/-! ### Claim C10: a zero timestamp behaves like an absent one -/

theorem breakStep_open_zero_end (acc : Int × Bool) (br : RawBreak)
    (hs : truthy br.start_timestamp = true) (he : br.end_timestamp = some 0) :
    breakStep acc br = (acc.1, true) := by
  simp [breakStep, hs, he, truthy_some_zero]

theorem foldl_breakStep_flag_mono (l : List RawBreak) (acc : Int × Bool)
    (h : acc.2 = true) : (l.foldl breakStep acc).2 = true := by
  rw [foldl_breakStep_snd, h]
  simp

/-- C10: timestamp `0` is Python-falsy, so it acts exactly like an absent
timestamp: a shift whose start timestamp is `0` contributes no seconds in
either computation and never becomes the current open segment (dropping it
from the list changes nothing at all), and in the daily engine a break with a
truthy start and end timestamp `0` sets the on-break flag while contributing
nothing to completed-break seconds. -/
theorem zero_timestamp_like_absent (now_ts : Int) (s : RawShift)
    (pre post : List RawShift) (b : RawBreak) (bpre bpost : List RawBreak)
    (hs : s.start_timestamp = some 0)
    (hbs : truthy b.start_timestamp = true) (hbe : b.end_timestamp = some 0) :
    weeklyShiftSecs now_ts (pre ++ s :: post) = weeklyShiftSecs now_ts (pre ++ post)
    ∧ accumulateShifts now_ts (pre ++ s :: post) = accumulateShifts now_ts (pre ++ post)
    ∧ (accumulateBreaks (bpre ++ b :: bpost)).2 = true
    ∧ (accumulateBreaks (bpre ++ b :: bpost)).1 = (accumulateBreaks (bpre ++ bpost)).1 := by
  refine ⟨?_, ?_, ?_, ?_⟩
  · unfold weeklyShiftSecs
    rw [List.foldl_append, List.foldl_append, List.foldl_cons,
      weeklyShiftStep_zero_start now_ts _ s hs]
  · unfold accumulateShifts
    rw [List.foldl_append, List.foldl_append, List.foldl_cons,
      shiftStep_zero_start now_ts _ s hs]
  · unfold accumulateBreaks
    rw [List.foldl_append, List.foldl_cons, breakStep_open_zero_end _ b hbs hbe]
    exact foldl_breakStep_flag_mono bpost _ rfl
  · unfold accumulateBreaks
    rw [List.foldl_append, List.foldl_append, List.foldl_cons,
      breakStep_open_zero_end _ b hbs hbe]
    have h1 := foldl_breakStep_fst bpost ((bpre.foldl breakStep (0, false)).1) true
    have h2 := foldl_breakStep_fst bpost ((bpre.foldl breakStep (0, false)).1)
      ((bpre.foldl breakStep (0, false)).2)
    rw [h1, ← h2, Prod.mk.eta]

/-- Closed witness for the zero-timestamp claim, at a concrete input. -/
theorem zero_timestamp_like_absent_witness :
    weeklyShiftSecs 50 ([⟨some 10, some 30⟩] ++ ⟨some 0, some 40⟩ :: [⟨some 7, none⟩])
        = weeklyShiftSecs 50 ([⟨some 10, some 30⟩] ++ [⟨some 7, none⟩])
    ∧ accumulateShifts 50 ([⟨some 10, some 30⟩] ++ ⟨some 0, some 40⟩ :: [⟨some 7, none⟩])
        = accumulateShifts 50 ([⟨some 10, some 30⟩] ++ [⟨some 7, none⟩])
    ∧ (accumulateBreaks ([⟨some 3, some 5⟩] ++ ⟨some 4, some 0⟩ :: [⟨some 6, some 9⟩])).2 = true
    ∧ (accumulateBreaks ([⟨some 3, some 5⟩] ++ ⟨some 4, some 0⟩ :: [⟨some 6, some 9⟩])).1
        = (accumulateBreaks ([⟨some 3, some 5⟩] ++ [⟨some 6, some 9⟩])).1 :=
  zero_timestamp_like_absent 50 ⟨some 0, some 40⟩ [⟨some 10, some 30⟩] [⟨some 7, none⟩]
    ⟨some 4, some 0⟩ [⟨some 3, some 5⟩] [⟨some 6, some 9⟩] rfl (by decide) rfl

/-! ### The stable descending sort on the internal key -/

theorem insertDesc_perm (e : EmployeeFull) (l : List EmployeeFull) :
    (insertDesc e l).Perm (e :: l) := by
  induction l with
  | nil => exact List.Perm.refl _
  | cons x xs ih =>
    unfold insertDesc
    by_cases h : x.segmentSecs ≤ e.segmentSecs
    · rw [if_pos h]
    · rw [if_neg h]
      exact (ih.cons x).trans (List.Perm.swap e x xs)

theorem sortEmployees_perm (l : List EmployeeFull) : (sortEmployees l).Perm l := by
  induction l with
  | nil => exact List.Perm.refl _
  | cons e l ih =>
    unfold sortEmployees
    rw [List.foldr_cons]
    exact (insertDesc_perm e _).trans (ih.cons e)

theorem mem_sortEmployees (l : List EmployeeFull) (e : EmployeeFull) :
    e ∈ sortEmployees l ↔ e ∈ l :=
  (sortEmployees_perm l).mem_iff

theorem insertDesc_pairwise (e : EmployeeFull) (l : List EmployeeFull)
    (h : l.Pairwise (fun a b => b.segmentSecs ≤ a.segmentSecs)) :
    (insertDesc e l).Pairwise (fun a b => b.segmentSecs ≤ a.segmentSecs) := by
  induction l with
  | nil => simp [insertDesc]
  | cons x xs ih =>
    obtain ⟨hx, hxs⟩ := List.pairwise_cons.mp h
    unfold insertDesc
    by_cases hc : x.segmentSecs ≤ e.segmentSecs
    · rw [if_pos hc]
      refine List.pairwise_cons.mpr ⟨?_, h⟩
      intro b hb
      rcases List.mem_cons.mp hb with hb | hb
      · rw [hb]; exact hc
      · exact le_trans (hx b hb) hc
    · rw [if_neg hc]
      refine List.pairwise_cons.mpr ⟨?_, ih hxs⟩
      intro b hb
      rcases List.mem_cons.mp ((insertDesc_perm e xs).mem_iff.mp hb) with hb | hb
      · rw [hb]; exact le_of_lt (lt_of_not_le hc)
      · exact hx b hb

theorem sortEmployees_pairwise (l : List EmployeeFull) :
    (sortEmployees l).Pairwise (fun a b => b.segmentSecs ≤ a.segmentSecs) := by
  induction l with
  | nil => simp [sortEmployees]
  | cons e l ih =>
    unfold sortEmployees
    rw [List.foldr_cons]
    exact insertDesc_pairwise e _ ih

/-! ### Unfolding the daily engine on a successful run -/

theorem engine_ok_eq
    (fetch : Int → Int → Except FetchError (List UserDayActivity))
    (user_map : Nat → Option String) (fmt_time : Int → String)
    (clock_id date now_ts_weekly now_ts : Int)
    (activities : List UserDayActivity) (weekly : Nat → Option WeeklyEntry)
    (hact : fetch clock_id date = .ok activities)
    (hweek : get_weekly_totals_by_timeclock_id fetch clock_id date now_ts_weekly
        = .ok weekly) :
    get_employee_status_by_timeclock_id fetch user_map fmt_time true clock_id date
        now_ts_weekly now_ts
      = .ok ((sortEmployees ((activities.filter (fun ua => !ua.shifts.isEmpty)).map
          (buildEmployee user_map fmt_time weekly now_ts))).map stripSegmentSecs) := by
  unfold get_employee_status_by_timeclock_id
  rw [hact, hweek]
  simp

theorem mem_engine_out
    (fetch : Int → Int → Except FetchError (List UserDayActivity))
    (user_map : Nat → Option String) (fmt_time : Int → String)
    (clock_id date now_ts_weekly now_ts : Int)
    (activities : List UserDayActivity) (weekly : Nat → Option WeeklyEntry)
    (out : List Employee)
    (hact : fetch clock_id date = .ok activities)
    (hweek : get_weekly_totals_by_timeclock_id fetch clock_id date now_ts_weekly
        = .ok weekly)
    (hout : get_employee_status_by_timeclock_id fetch user_map fmt_time true clock_id
        date now_ts_weekly now_ts = .ok out)
    (s : Employee) :
    s ∈ out ↔ ∃ ua ∈ activities, ua.shifts ≠ []
      ∧ s = stripSegmentSecs (buildEmployee user_map fmt_time weekly now_ts ua) := by
  have heq := engine_ok_eq fetch user_map fmt_time clock_id date now_ts_weekly now_ts
    activities weekly hact hweek
  rw [hout] at heq
  have hlist := (Except.ok.injEq _ _).mp heq
  rw [hlist]
  constructor
  · intro hmem
    obtain ⟨full, hfull, hstrip⟩ := List.mem_map.mp hmem
    have hfull2 := (mem_sortEmployees _ full).mp hfull
    obtain ⟨ua, hua, hbuild⟩ := List.mem_map.mp hfull2
    obtain ⟨huamem, hne⟩ := List.mem_filter.mp hua
    refine ⟨ua, huamem, ?_, ?_⟩
    · intro hnil
      rw [hnil] at hne
      simp at hne
    · rw [← hstrip, ← hbuild]
  · intro ⟨ua, huamem, hne, hs⟩
    refine List.mem_map.mpr ⟨buildEmployee user_map fmt_time weekly now_ts ua, ?_, hs.symm⟩
    refine (mem_sortEmployees _ _).mpr (List.mem_map.mpr ⟨ua, ?_, rfl⟩)
    refine List.mem_filter.mpr ⟨huamem, ?_⟩
    simp [List.isEmpty_iff, hne]

/-! ### Field projections of a built snapshot -/

theorem strip_otToday (f : EmployeeFull) :
    (stripSegmentSecs f).otToday = f.otToday := rfl

theorem strip_status (f : EmployeeFull) :
    (stripSegmentSecs f).status = f.status := rfl

theorem strip_lunchStatus (f : EmployeeFull) :
    (stripSegmentSecs f).lunchStatus = f.lunchStatus := rfl

theorem strip_lunchClass (f : EmployeeFull) :
    (stripSegmentSecs f).lunchClass = f.lunchClass := rfl

theorem buildEmployee_otToday (um : Nat → Option String) (ft : Int → String)
    (w : Nat → Option WeeklyEntry) (now_ts : Int) (ua : UserDayActivity) :
    (buildEmployee um ft w now_ts ua).otToday
      = format_duration
          (max (max 0 (max 0 ((accumulateShifts now_ts ua.shifts).1
                                - (accumulateBreaks ua.manualBreaks).1) - 8*3600))
               (max 0 (((w ua.userId).map WeeklyEntry.weeklySecs).getD 0 - 40*3600))) := rfl

theorem buildEmployee_totalTimeOnClock (um : Nat → Option String) (ft : Int → String)
    (w : Nat → Option WeeklyEntry) (now_ts : Int) (ua : UserDayActivity) :
    (buildEmployee um ft w now_ts ua).totalTimeOnClock
      = format_duration
          (max 0 ((accumulateShifts now_ts ua.shifts).1
                    - (accumulateBreaks ua.manualBreaks).1)) := rfl

theorem buildEmployee_status (um : Nat → Option String) (ft : Int → String)
    (w : Nat → Option WeeklyEntry) (now_ts : Int) (ua : UserDayActivity) :
    (buildEmployee um ft w now_ts ua).status
      = (if (accumulateBreaks ua.manualBreaks).2 then "On Lunch"
         else if truthy (accumulateShifts now_ts ua.shifts).2 then "Clocked In"
         else "Off") := rfl

theorem buildEmployee_lunchStatus (um : Nat → Option String) (ft : Int → String)
    (w : Nat → Option WeeklyEntry) (now_ts : Int) (ua : UserDayActivity) :
    (buildEmployee um ft w now_ts ua).lunchStatus
      = (if (accumulateBreaks ua.manualBreaks).1 > 0 then "Taken"
         else if (accumulateShifts now_ts ua.shifts).1 < 4*3600 then "Not Yet Due"
         else if (accumulateShifts now_ts ua.shifts).1 < 5*3600 then "Due Now"
         else "Overdue by "
           ++ format_duration ((accumulateShifts now_ts ua.shifts).1 - 5*3600)) := rfl

theorem buildEmployee_lunchClass (um : Nat → Option String) (ft : Int → String)
    (w : Nat → Option WeeklyEntry) (now_ts : Int) (ua : UserDayActivity) :
    (buildEmployee um ft w now_ts ua).lunchClass
      = (if (accumulateBreaks ua.manualBreaks).1 > 0 then "lunch-ok"
         else if (accumulateShifts now_ts ua.shifts).1 < 4*3600 then "lunch-ok"
         else if (accumulateShifts now_ts ua.shifts).1 < 5*3600 then "lunch-due"
         else "lunch-overdue") := rfl

theorem buildEmployee_segmentSecs (um : Nat → Option String) (ft : Int → String)
    (w : Nat → Option WeeklyEntry) (now_ts : Int) (ua : UserDayActivity) :
    (buildEmployee um ft w now_ts ua).segmentSecs
      = (if truthy (accumulateShifts now_ts ua.shifts).2 then
           now_ts - (accumulateShifts now_ts ua.shifts).2.getD 0
         else 0) := rfl

/-! ### The weekly summary invariant -/

theorem processUser_self (now_ts ds : Int) (sm : Nat → Option WeeklyEntryRaw)
    (ua : UserDayActivity) :
    processUser now_ts ds sm ua ua.userId
      = some ⟨fun d => if d = ds then some (weeklyNet now_ts ua)
                       else ((sm ua.userId).getD emptyEntry).dailySecs d,
              ((sm ua.userId).getD emptyEntry).weeklySecs + weeklyNet now_ts ua⟩ := by
  simp [processUser]

theorem processUser_ne (now_ts ds : Int) (sm : Nat → Option WeeklyEntryRaw)
    (ua : UserDayActivity) (uid : Nat) (h : uid ≠ ua.userId) :
    processUser now_ts ds sm ua uid = sm uid := by
  simp [processUser, h]

/-- Invariant carried across processed dates: each stored entry's weekly total
is the sum of its stored per-date values over `dates`, no key outside `dates`
is populated, and every stored value is nonnegative. -/
def SummaryInv (dates : List Int) (sm : Nat → Option WeeklyEntryRaw) : Prop :=
  ∀ uid e, sm uid = some e →
    e.weeklySecs = (dates.map (fun d => (e.dailySecs d).getD 0)).sum
    ∧ (∀ d, d ∉ dates → e.dailySecs d = none)
    ∧ (∀ d v, e.dailySecs d = some v → 0 ≤ v)

theorem sum_map_getD_zero_empty (dates : List Int) :
    (dates.map (fun d => (emptyEntry.dailySecs d).getD 0)).sum = 0 := by
  induction dates with
  | nil => rfl
  | cons d l ih => simp [emptyEntry]

theorem SummaryInv_extend (dates : List Int) (ds : Int)
    (sm : Nat → Option WeeklyEntryRaw) (hds : ds ∉ dates)
    (h : SummaryInv dates sm) : SummaryInv (dates ++ [ds]) sm := by
  intro uid e he
  obtain ⟨hsum, hout, hnn⟩ := h uid e he
  refine ⟨?_, ?_, hnn⟩
  · rw [List.map_append, List.sum_append]
    have hnone : e.dailySecs ds = none := hout ds hds
    simp [hnone, hsum]
  · intro d hd
    exact hout d (fun hmem => hd (List.mem_append.mpr (Or.inl hmem)))

theorem processUser_inv (now_ts : Int) (dates : List Int) (ds : Int)
    (hds : ds ∉ dates) (sm : Nat → Option WeeklyEntryRaw) (ua : UserDayActivity)
    (hInv : SummaryInv (dates ++ [ds]) sm)
    (hfresh : ∀ e, sm ua.userId = some e → e.dailySecs ds = none) :
    SummaryInv (dates ++ [ds]) (processUser now_ts ds sm ua) := by
  have hbase : ((sm ua.userId).getD emptyEntry).weeklySecs
        = (dates.map (fun d => (((sm ua.userId).getD emptyEntry).dailySecs d).getD 0)).sum
      ∧ (∀ d, d ∉ dates ++ [ds] → ((sm ua.userId).getD emptyEntry).dailySecs d = none)
      ∧ (∀ d v, ((sm ua.userId).getD emptyEntry).dailySecs d = some v → 0 ≤ v)
      ∧ ((sm ua.userId).getD emptyEntry).dailySecs ds = none := by
    cases hsm : sm ua.userId with
    | none =>
      simp only [Option.getD_none]
      exact ⟨(sum_map_getD_zero_empty dates).symm, fun d _ => rfl,
        fun d v hv => absurd hv (by simp [emptyEntry]), rfl⟩
    | some e1 =>
      obtain ⟨hsum, hout, hnn⟩ := hInv ua.userId e1 hsm
      have hfr : e1.dailySecs ds = none := hfresh e1 hsm
      refine ⟨?_, ?_, ?_, ?_⟩ <;> simp only [hsm, Option.getD_some]
      · rw [hsum, List.map_append, List.sum_append]
        simp [hfr]
      · exact hout
      · exact hnn
      · exact hfr
  obtain ⟨hbsum, hbout, hbnn, hbds⟩ := hbase
  intro uid e he
  by_cases huid : uid = ua.userId
  · subst huid
    rw [processUser_self] at he
    have he' := (Option.some.injEq _ _).mp he
    subst he'
    refine ⟨?_, ?_, ?_⟩ <;> dsimp only
    · rw [List.map_append, List.sum_append]
      have hmap : List.map (fun d =>
            ((if d = ds then some (weeklyNet now_ts ua)
              else ((sm ua.userId).getD emptyEntry).dailySecs d).getD 0)) dates
          = List.map (fun d =>
              (((sm ua.userId).getD emptyEntry).dailySecs d).getD 0) dates := by
        apply List.map_congr_left
        intro d hd
        have hne : d ≠ ds := fun hcon => hds (hcon ▸ hd)
        simp [hne]
      rw [hmap]
      simp [hbsum]
    · intro d hd
      have hd2 : d ≠ ds := by
        intro hcon
        exact hd (List.mem_append.mpr (Or.inr (by simp [hcon])))
      simp only [hd2, if_false]
      exact hbout d hd
    · intro d v hv
      by_cases hdds : d = ds
      · subst hdds
        have hv2 : some (weeklyNet now_ts ua) = some v := by simpa using hv
        rw [← (Option.some.injEq _ _).mp hv2]
        exact le_max_left 0 _
      · simp only [hdds, if_false] at hv
        exact hbnn d v hv
  · rw [processUser_ne now_ts ds sm ua uid huid] at he
    exact hInv uid e he

theorem processDay_go (now_ts : Int) (dates : List Int) (ds : Int) (hds : ds ∉ dates) :
    ∀ (uas : List UserDayActivity) (sm : Nat → Option WeeklyEntryRaw),
    (uas.map UserDayActivity.userId).Nodup →
    SummaryInv (dates ++ [ds]) sm →
    (∀ ua ∈ uas, ∀ e, sm ua.userId = some e → e.dailySecs ds = none) →
    SummaryInv (dates ++ [ds]) (uas.foldl (processUser now_ts ds) sm) := by
  intro uas
  induction uas with
  | nil => intro sm _ hInv _; exact hInv
  | cons ua rest ih =>
    intro sm hnodup hInv hfresh
    rw [List.foldl_cons]
    rw [List.map_cons, List.nodup_cons] at hnodup
    apply ih _ hnodup.2
    · exact processUser_inv now_ts dates ds hds sm ua hInv
        (hfresh ua (List.mem_cons_self ua rest))
    · intro ua' hua' e he
      have hneq : ua'.userId ≠ ua.userId := by
        intro hcon
        exact hnodup.1 (hcon ▸ List.mem_map.mpr ⟨ua', hua', rfl⟩)
      rw [processUser_ne now_ts ds sm ua _ hneq] at he
      exact hfresh ua' (List.mem_cons_of_mem ua hua') e he

theorem processDay_inv (now_ts ds : Int) (dates : List Int)
    (uas : List UserDayActivity) (sm : Nat → Option WeeklyEntryRaw)
    (hds : ds ∉ dates)
    (hnodup : (uas.map UserDayActivity.userId).Nodup)
    (hInv : SummaryInv dates sm) :
    SummaryInv (dates ++ [ds]) (processDay now_ts ds sm uas) := by
  apply processDay_go now_ts dates ds hds uas sm hnodup
    (SummaryInv_extend dates ds sm hds hInv)
  intro ua _ e he
  exact (hInv ua.userId e he).2.1 ds hds

theorem weeklyLoop_inv (fetch : Int → Int → Except FetchError (List UserDayActivity))
    (clock_id now_ts week_start : Int) :
    ∀ (offsets dates : List Int) (sm out : Nat → Option WeeklyEntryRaw),
    offsets.Nodup →
    (∀ i ∈ offsets, (week_start + i) ∉ dates) →
    SummaryInv dates sm →
    (∀ d uas, fetch clock_id d = .ok uas → (uas.map UserDayActivity.userId).Nodup) →
    weeklyLoop fetch clock_id now_ts week_start offsets sm = .ok out →
    SummaryInv (dates ++ offsets.map (fun i => week_start + i)) out := by
  intro offsets
  induction offsets with
  | nil =>
    intro dates sm out _ _ hInv _ hloop
    have : sm = out := by
      simpa [weeklyLoop] using hloop
    subst this
    simpa using hInv
  | cons o os ih =>
    intro dates sm out hnodup hnew hInv hfetch hloop
    unfold weeklyLoop at hloop
    cases hf : fetch clock_id (week_start + o) with
    | error e => rw [hf] at hloop; exact absurd hloop (by simp)
    | ok uas =>
      rw [hf] at hloop
      rw [List.nodup_cons] at hnodup
      have h1 : SummaryInv (dates ++ [week_start + o])
          (processDay now_ts (week_start + o) sm uas) :=
        processDay_inv now_ts (week_start + o) dates uas sm
          (hnew o (List.mem_cons_self o os)) (hfetch _ _ hf) hInv
      have h2 := ih (dates ++ [week_start + o]) _ out hnodup.2 ?_ h1 hfetch hloop
      · rw [List.map_cons]
        rw [show dates ++ (week_start + o) :: os.map (fun i => week_start + i)
            = (dates ++ [week_start + o]) ++ os.map (fun i => week_start + i) by
          simp]
        exact h2
      · intro i hi
        intro hmem
        rcases List.mem_append.mp hmem with hmem | hmem
        · exact hnew i (List.mem_cons_of_mem o hi) hmem
        · have : week_start + i = week_start + o := by simpa using hmem
          have : i = o := by omega
          exact hnodup.1 (this ▸ hi)

/-! ### Nonnegativity invariant (no assumption on the fetched data) -/

/-- Every stored per-date value and weekly total is nonnegative. -/
def SummaryNN (sm : Nat → Option WeeklyEntryRaw) : Prop :=
  ∀ uid e, sm uid = some e →
    0 ≤ e.weeklySecs ∧ ∀ d v, e.dailySecs d = some v → 0 ≤ v

theorem weeklyNet_nonneg (now_ts : Int) (ua : UserDayActivity) :
    0 ≤ weeklyNet now_ts ua :=
  le_max_left 0 _

theorem processUser_nn (now_ts ds : Int) (sm : Nat → Option WeeklyEntryRaw)
    (ua : UserDayActivity) (h : SummaryNN sm) :
    SummaryNN (processUser now_ts ds sm ua) := by
  have hbase : 0 ≤ ((sm ua.userId).getD emptyEntry).weeklySecs
      ∧ ∀ d v, ((sm ua.userId).getD emptyEntry).dailySecs d = some v → 0 ≤ v := by
    cases hsm : sm ua.userId with
    | none =>
      exact ⟨le_refl 0, fun d v hv => absurd hv (by simp [emptyEntry])⟩
    | some e1 => exact h ua.userId e1 hsm
  intro uid e he
  by_cases huid : uid = ua.userId
  · subst huid
    rw [processUser_self] at he
    have he' := (Option.some.injEq _ _).mp he
    subst he'
    refine ⟨?_, ?_⟩ <;> dsimp only
    · exact add_nonneg hbase.1 (weeklyNet_nonneg now_ts ua)
    · intro d v hv
      by_cases hdds : d = ds
      · subst hdds
        have hv2 : some (weeklyNet now_ts ua) = some v := by simpa using hv
        rw [← (Option.some.injEq _ _).mp hv2]
        exact weeklyNet_nonneg now_ts ua
      · simp only [hdds, if_false] at hv
        exact hbase.2 d v hv
  · rw [processUser_ne now_ts ds sm ua uid huid] at he
    exact h uid e he

theorem processDay_nn (now_ts ds : Int) (uas : List UserDayActivity)
    (sm : Nat → Option WeeklyEntryRaw) (h : SummaryNN sm) :
    SummaryNN (processDay now_ts ds sm uas) := by
  unfold processDay
  induction uas generalizing sm with
  | nil => exact h
  | cons ua rest ih =>
    rw [List.foldl_cons]
    exact ih _ (processUser_nn now_ts ds sm ua h)

theorem weeklyLoop_nn (fetch : Int → Int → Except FetchError (List UserDayActivity))
    (clock_id now_ts week_start : Int) :
    ∀ (offsets : List Int) (sm out : Nat → Option WeeklyEntryRaw),
    SummaryNN sm →
    weeklyLoop fetch clock_id now_ts week_start offsets sm = .ok out →
    SummaryNN out := by
  intro offsets
  induction offsets with
  | nil =>
    intro sm out h hloop
    have : sm = out := by simpa [weeklyLoop] using hloop
    exact this ▸ h
  | cons o os ih =>
    intro sm out h hloop
    unfold weeklyLoop at hloop
    cases hf : fetch clock_id (week_start + o) with
    | error e => rw [hf] at hloop; exact absurd hloop (by simp)
    | ok uas =>
      rw [hf] at hloop
      exact ih _ out (processDay_nn now_ts (week_start + o) uas sm h) hloop

/-! ### Unfolding the weekly aggregator on a successful run -/

theorem finalizeEntry_dailySecs (e : WeeklyEntryRaw) :
    (finalizeEntry e).dailySecs = e.dailySecs := rfl

theorem finalizeEntry_weeklySecs (e : WeeklyEntryRaw) :
    (finalizeEntry e).weeklySecs = e.weeklySecs := rfl

theorem get_weekly_ok_raw (fetch : Int → Int → Except FetchError (List UserDayActivity))
    (clock_id week_ending now_ts : Int) (weekly : Nat → Option WeeklyEntry)
    (hok : get_weekly_totals_by_timeclock_id fetch clock_id week_ending now_ts
        = .ok weekly) :
    ∃ summary : Nat → Option WeeklyEntryRaw,
      weeklyLoop fetch clock_id now_ts (week_ending - weekday week_ending)
          [0, 1, 2, 3, 4, 5, 6] (fun _ => none) = .ok summary
      ∧ weekly = fun uid => (summary uid).map finalizeEntry := by
  have hok' : (match weeklyLoop fetch clock_id now_ts (week_ending - weekday week_ending)
      [0, 1, 2, 3, 4, 5, 6] (fun _ => none) with
    | Except.error e => (Except.error e : Except FetchError (Nat → Option WeeklyEntry))
    | Except.ok summary => Except.ok (fun uid => (summary uid).map finalizeEntry))
      = Except.ok weekly := hok
  cases hloop : weeklyLoop fetch clock_id now_ts (week_ending - weekday week_ending)
      [0, 1, 2, 3, 4, 5, 6] (fun _ => none) with
  | error e => rw [hloop] at hok'; exact absurd hok' (by simp)
  | ok summary =>
    rw [hloop] at hok'
    exact ⟨summary, rfl, ((Except.ok.injEq _ _).mp hok').symm⟩

theorem nil_SummaryInv : SummaryInv [] (fun _ => none) := by
  intro uid e he
  exact absurd he (by simp)

theorem nil_SummaryNN : SummaryNN (fun _ => none) := by
  intro uid e he
  exact absurd he (by simp)

/-- The complete characterization of a successful weekly aggregation, over the
seven Monday-anchored dates. -/
theorem get_weekly_ok_props (fetch : Int → Int → Except FetchError (List UserDayActivity))
    (clock_id week_ending now_ts : Int) (weekly : Nat → Option WeeklyEntry)
    (hnodup : ∀ d uas, fetch clock_id d = .ok uas
        → (uas.map UserDayActivity.userId).Nodup)
    (hok : get_weekly_totals_by_timeclock_id fetch clock_id week_ending now_ts
        = .ok weekly) :
    ∀ uid e, weekly uid = some e →
      e.weeklySecs = ((([0, 1, 2, 3, 4, 5, 6] : List Int).map
          (fun i => week_ending - weekday week_ending + i)).map
            (fun d => (e.dailySecs d).getD 0)).sum
      ∧ (∀ d, d ∉ ([0, 1, 2, 3, 4, 5, 6] : List Int).map
          (fun i => week_ending - weekday week_ending + i) → e.dailySecs d = none)
      ∧ (∀ d v, e.dailySecs d = some v → 0 ≤ v) := by
  obtain ⟨summary, hloop, hw⟩ := get_weekly_ok_raw fetch clock_id week_ending now_ts
    weekly hok
  have hInv := weeklyLoop_inv fetch clock_id now_ts (week_ending - weekday week_ending)
    [0, 1, 2, 3, 4, 5, 6] [] (fun _ => none) summary (by decide) (by simp)
    nil_SummaryInv hnodup hloop
  rw [List.nil_append] at hInv
  intro uid e he
  rw [hw] at he
  obtain ⟨raw, hraw, hfin⟩ := Option.map_eq_some'.mp he
  obtain ⟨hsum, hout, hnn⟩ := hInv uid raw hraw
  rw [← hfin]
  exact ⟨hsum, hout, hnn⟩

theorem get_weekly_ok_nn (fetch : Int → Int → Except FetchError (List UserDayActivity))
    (clock_id week_ending now_ts : Int) (weekly : Nat → Option WeeklyEntry)
    (hok : get_weekly_totals_by_timeclock_id fetch clock_id week_ending now_ts
        = .ok weekly) :
    ∀ uid e, weekly uid = some e →
      0 ≤ e.weeklySecs ∧ ∀ d v, e.dailySecs d = some v → 0 ≤ v := by
  obtain ⟨summary, hloop, hw⟩ := get_weekly_ok_raw fetch clock_id week_ending now_ts
    weekly hok
  have hNN := weeklyLoop_nn fetch clock_id now_ts (week_ending - weekday week_ending)
    [0, 1, 2, 3, 4, 5, 6] (fun _ => none) summary nil_SummaryNN hloop
  intro uid e he
  rw [hw] at he
  obtain ⟨raw, hraw, hfin⟩ := Option.map_eq_some'.mp he
  obtain ⟨h1, h2⟩ := hNN uid raw hraw
  rw [← hfin]
  exact ⟨h1, h2⟩

/-! ### Monday anchoring of the computed week -/

theorem week_start_facts (week_ending : Int) :
    weekday (week_ending - weekday week_ending) = 0
    ∧ week_ending - weekday week_ending ≤ week_ending
    ∧ week_ending < week_ending - weekday week_ending + 7 := by
  unfold weekday
  omega

/-! ### Error propagation -/

theorem weeklyLoop_error (fetch : Int → Int → Except FetchError (List UserDayActivity))
    (clock_id now_ts week_start : Int) :
    ∀ (offsets : List Int) (sm : Nat → Option WeeklyEntryRaw),
    (∃ i ∈ offsets, ∃ e, fetch clock_id (week_start + i) = .error e) →
    ∃ e', weeklyLoop fetch clock_id now_ts week_start offsets sm = .error e' := by
  intro offsets
  induction offsets with
  | nil => intro sm ⟨i, hi, _⟩; exact absurd hi (by simp)
  | cons o os ih =>
    intro sm ⟨i, hi, e, he⟩
    unfold weeklyLoop
    cases hf : fetch clock_id (week_start + o) with
    | error e0 => exact ⟨e0, rfl⟩
    | ok uas =>
      rcases List.mem_cons.mp hi with hio | hios
      · rw [hio] at he
        rw [he] at hf
        exact absurd hf (by simp)
      · exact ih _ ⟨i, hios, e, he⟩

/-! ### Concrete fixtures used by witnesses and the counterexample -/

/-- Fallback employee used to extract the head of a concrete output list. -/
def emptyEmployee : Employee := ⟨"", none, "", "", "", "", "", "", ""⟩

/-- One user, one closed 9-hour shift, no breaks. -/
def fixUA : UserDayActivity := ⟨7, [⟨some 3600, some (3600 + 9*3600)⟩], []⟩

def fixFetch : Int → Int → Except FetchError (List UserDayActivity) :=
  fun _ _ => .ok [fixUA]

def fixUserMap : Nat → Option String := fun _ => none

def fixFmtTime : Int → String := fun _ => "t"

def fixWeekly : Nat → Option WeeklyEntry :=
  match get_weekly_totals_by_timeclock_id fixFetch 5 20000 1000 with
  | .ok w => w
  | .error _ => fun _ => none

def fixOut : List Employee :=
  match get_employee_status_by_timeclock_id fixFetch fixUserMap fixFmtTime true 5
      20000 1000 1000 with
  | .ok l => l
  | .error _ => []

/-! ### Claim C1: overtime today -/

/-- C1: every snapshot of the daily output carries
`overtime_today = max(max(0, net_daily - 8h), max(0, weekly_secs - 40h))`,
where `net_daily = max(0, total - completed breaks)` and the weekly seconds
come from the Weekly Aggregator's output for that user, `0` when absent. -/
theorem snapshot_otToday_max_of_daily_and_weekly
    (fetch : Int → Int → Except FetchError (List UserDayActivity))
    (user_map : Nat → Option String) (fmt_time : Int → String)
    (clock_id date now_ts_weekly now_ts : Int)
    (activities : List UserDayActivity) (weekly : Nat → Option WeeklyEntry)
    (out : List Employee)
    (hact : fetch clock_id date = .ok activities)
    (hweek : get_weekly_totals_by_timeclock_id fetch clock_id date now_ts_weekly
        = .ok weekly)
    (hout : get_employee_status_by_timeclock_id fetch user_map fmt_time true clock_id
        date now_ts_weekly now_ts = .ok out) :
    ∀ s ∈ out, ∃ ua ∈ activities,
      s.otToday = format_duration
        (max (max 0 (max 0 ((accumulateShifts now_ts ua.shifts).1
                              - (accumulateBreaks ua.manualBreaks).1) - 8*3600))
             (max 0 (((weekly ua.userId).map WeeklyEntry.weeklySecs).getD 0
                      - 40*3600))) := by
  intro s hs
  obtain ⟨ua, hua, _, hseq⟩ := (mem_engine_out fetch user_map fmt_time clock_id date
    now_ts_weekly now_ts activities weekly out hact hweek hout s).mp hs
  refine ⟨ua, hua, ?_⟩
  rw [hseq, strip_otToday, buildEmployee_otToday]

/-- Closed witness for C1 at the one-user fixture. -/
theorem snapshot_otToday_max_of_daily_and_weekly_witness :
    ∃ ua ∈ [fixUA], (fixOut.getD 0 emptyEmployee).otToday
      = format_duration
          (max (max 0 (max 0 ((accumulateShifts 1000 ua.shifts).1
                                - (accumulateBreaks ua.manualBreaks).1) - 8*3600))
               (max 0 (((fixWeekly ua.userId).map WeeklyEntry.weeklySecs).getD 0
                        - 40*3600))) := by
  have h := snapshot_otToday_max_of_daily_and_weekly fixFetch fixUserMap fixFmtTime
    5 20000 1000 1000 [fixUA] fixWeekly fixOut rfl rfl rfl
  exact h (fixOut.getD 0 emptyEmployee) (by decide)

/-! ### Claim C2: graduated-overdue lunch policy -/

/-- A zero-length completed break: both endpoints present (truthy) yet
contributing zero seconds. -/
def cexBreak : RawBreak := ⟨some 3600, some 3600⟩

/-- One user, a closed 6-hour shift, and the zero-length completed break. -/
def cexUA : UserDayActivity := ⟨7, [⟨some 3600, some (3600 + 6*3600)⟩], [cexBreak]⟩

def cexFetch : Int → Int → Except FetchError (List UserDayActivity) :=
  fun _ _ => .ok [cexUA]

def cexOut : List Employee :=
  match get_employee_status_by_timeclock_id cexFetch fixUserMap fixFmtTime true 5
      20000 90000 90000 with
  | .ok l => l
  | .error _ => []

/-- C2 counterexample: a completed break exists (both endpoints present), the
user worked 6 hours, yet the emitted lunch status is `Overdue by 1:00`, not
`Taken`: the code tests `break_secs > 0`, not the existence of a completed
break, so a zero-length completed break falls through to the overdue branch. -/
theorem lunch_taken_requires_positive_break_secs_cex :
    cexBreak ∈ cexUA.manualBreaks
    ∧ truthy cexBreak.start_timestamp = true
    ∧ truthy cexBreak.end_timestamp = true
    ∧ (get_employee_status_by_timeclock_id cexFetch fixUserMap fixFmtTime true 5
        20000 90000 90000).map (List.map Employee.lunchStatus)
      = .ok ["Overdue by 1:00"] :=
  ⟨by decide, by decide, by decide, by rfl⟩

/-- C2 (amended): for every user in the daily snapshot, if the total of
completed-break seconds is positive the lunch status is `Taken`; otherwise the
graduated thresholds on gross worked time apply (`Not Yet Due` under 4h,
`Due Now` under 5h, else `Overdue by (total - 5h)`), with the severity class
determined by the same state. -/
theorem graduated_lunch_policy_amended
    (fetch : Int → Int → Except FetchError (List UserDayActivity))
    (user_map : Nat → Option String) (fmt_time : Int → String)
    (clock_id date now_ts_weekly now_ts : Int)
    (activities : List UserDayActivity) (weekly : Nat → Option WeeklyEntry)
    (out : List Employee)
    (hact : fetch clock_id date = .ok activities)
    (hweek : get_weekly_totals_by_timeclock_id fetch clock_id date now_ts_weekly
        = .ok weekly)
    (hout : get_employee_status_by_timeclock_id fetch user_map fmt_time true clock_id
        date now_ts_weekly now_ts = .ok out) :
    ∀ s ∈ out, ∃ ua ∈ activities,
      ((accumulateBreaks ua.manualBreaks).1 > 0
        → s.lunchStatus = "Taken" ∧ s.lunchClass = "lunch-ok")
      ∧ (¬(accumulateBreaks ua.manualBreaks).1 > 0
        → (accumulateShifts now_ts ua.shifts).1 < 4*3600
        → s.lunchStatus = "Not Yet Due" ∧ s.lunchClass = "lunch-ok")
      ∧ (¬(accumulateBreaks ua.manualBreaks).1 > 0
        → ¬(accumulateShifts now_ts ua.shifts).1 < 4*3600
        → (accumulateShifts now_ts ua.shifts).1 < 5*3600
        → s.lunchStatus = "Due Now" ∧ s.lunchClass = "lunch-due")
      ∧ (¬(accumulateBreaks ua.manualBreaks).1 > 0
        → ¬(accumulateShifts now_ts ua.shifts).1 < 4*3600
        → ¬(accumulateShifts now_ts ua.shifts).1 < 5*3600
        → s.lunchStatus
            = "Overdue by "
              ++ format_duration ((accumulateShifts now_ts ua.shifts).1 - 5*3600)
          ∧ s.lunchClass = "lunch-overdue") := by
  intro s hs
  obtain ⟨ua, hua, _, hseq⟩ := (mem_engine_out fetch user_map fmt_time clock_id date
    now_ts_weekly now_ts activities weekly out hact hweek hout s).mp hs
  rw [hseq, strip_lunchStatus, strip_lunchClass, buildEmployee_lunchStatus,
    buildEmployee_lunchClass]
  refine ⟨ua, hua, ?_, ?_, ?_, ?_⟩
  · intro h1
    rw [if_pos h1, if_pos h1]
    exact ⟨rfl, rfl⟩
  · intro h1 h2
    rw [if_neg h1, if_neg h1, if_pos h2, if_pos h2]
    exact ⟨rfl, rfl⟩
  · intro h1 h2 h3
    rw [if_neg h1, if_neg h1, if_neg h2, if_neg h2, if_pos h3, if_pos h3]
    exact ⟨rfl, rfl⟩
  · intro h1 h2 h3
    rw [if_neg h1, if_neg h1, if_neg h2, if_neg h2, if_neg h3, if_neg h3]
    exact ⟨rfl, rfl⟩

/-- Closed witness for the amended C2: the counterexample input lands in the
overdue branch with the overdue severity class. -/
theorem graduated_lunch_policy_amended_witness :
    (cexOut.getD 0 emptyEmployee).lunchStatus
      = "Overdue by " ++ format_duration ((accumulateShifts 90000 cexUA.shifts).1 - 5*3600)
    ∧ (cexOut.getD 0 emptyEmployee).lunchClass = "lunch-overdue" := by
  have h := graduated_lunch_policy_amended cexFetch fixUserMap fixFmtTime 5 20000
    90000 90000 [cexUA] (match get_weekly_totals_by_timeclock_id cexFetch 5 20000
      90000 with | .ok w => w | .error _ => fun _ => none) cexOut rfl rfl rfl
  obtain ⟨ua, hua, _, _, _, h4⟩ := h (cexOut.getD 0 emptyEmployee) (by decide)
  have hua' : ua = cexUA := by simpa using hua
  subst hua'
  exact h4 (by decide) (by decide) (by decide)

/-! ### Claim C6: status derivation -/

/-- C6: for every snapshot, the status is `On Lunch` whenever an open
(started, unterminated) break exists, regardless of open shifts; otherwise
`Clocked In` when a current open segment exists; otherwise `Off`. -/
theorem status_onlunch_clockedin_off
    (fetch : Int → Int → Except FetchError (List UserDayActivity))
    (user_map : Nat → Option String) (fmt_time : Int → String)
    (clock_id date now_ts_weekly now_ts : Int)
    (activities : List UserDayActivity) (weekly : Nat → Option WeeklyEntry)
    (out : List Employee)
    (hact : fetch clock_id date = .ok activities)
    (hweek : get_weekly_totals_by_timeclock_id fetch clock_id date now_ts_weekly
        = .ok weekly)
    (hout : get_employee_status_by_timeclock_id fetch user_map fmt_time true clock_id
        date now_ts_weekly now_ts = .ok out) :
    ∀ s ∈ out, ∃ ua ∈ activities,
      ((∃ br ∈ ua.manualBreaks, isOpenBreak br = true) → s.status = "On Lunch")
      ∧ (¬(∃ br ∈ ua.manualBreaks, isOpenBreak br = true)
          → (∃ sh ∈ ua.shifts, isOpenShift sh = true) → s.status = "Clocked In")
      ∧ (¬(∃ br ∈ ua.manualBreaks, isOpenBreak br = true)
          → ¬(∃ sh ∈ ua.shifts, isOpenShift sh = true) → s.status = "Off") := by
  intro s hs
  obtain ⟨ua, hua, _, hseq⟩ := (mem_engine_out fetch user_map fmt_time clock_id date
    now_ts_weekly now_ts activities weekly out hact hweek hout s).mp hs
  rw [hseq, strip_status, buildEmployee_status]
  refine ⟨ua, hua, ?_, ?_, ?_⟩
  · intro ⟨br, hbr, hopen⟩
    have hb : (accumulateBreaks ua.manualBreaks).2 = true := by
      rw [accumulateBreaks_snd]
      exact List.any_eq_true.mpr ⟨br, hbr, hopen⟩
    rw [if_pos hb]
  · intro hnb hsh
    have hb : (accumulateBreaks ua.manualBreaks).2 = false := by
      rw [accumulateBreaks_snd]
      cases han : ua.manualBreaks.any isOpenBreak with
      | false => rfl
      | true => exact absurd (List.any_eq_true.mp han) hnb
    have hst : truthy (accumulateShifts now_ts ua.shifts).2 = true := by
      rw [accumulateShifts_snd]
      exact (truthy_lastOpenStart_iff ua.shifts).mpr hsh
    rw [if_neg (by simp [hb]), if_pos hst]
  · intro hnb hnsh
    have hb : (accumulateBreaks ua.manualBreaks).2 = false := by
      rw [accumulateBreaks_snd]
      cases han : ua.manualBreaks.any isOpenBreak with
      | false => rfl
      | true => exact absurd (List.any_eq_true.mp han) hnb
    have hst : truthy (accumulateShifts now_ts ua.shifts).2 = false := by
      rw [accumulateShifts_snd]
      cases ht : truthy (lastOpenStart ua.shifts) with
      | false => rfl
      | true => exact absurd ((truthy_lastOpenStart_iff ua.shifts).mp ht) hnsh
    rw [if_neg (by simp [hb]), if_neg (by simp [hst])]

/-- One user with both an open shift and an open break. -/
def c6UA : UserDayActivity := ⟨3, [⟨some 100, none⟩], [⟨some 200, none⟩]⟩

def c6Fetch : Int → Int → Except FetchError (List UserDayActivity) :=
  fun _ _ => .ok [c6UA]

def c6Out : List Employee :=
  match get_employee_status_by_timeclock_id c6Fetch fixUserMap fixFmtTime true 5
      20000 1000 1000 with
  | .ok l => l
  | .error _ => []

/-- Closed witness for C6: an open break forces `On Lunch` despite the open
shift. -/
theorem status_onlunch_clockedin_off_witness :
    (c6Out.getD 0 emptyEmployee).status = "On Lunch" := by
  have h := status_onlunch_clockedin_off c6Fetch fixUserMap fixFmtTime 5 20000
    1000 1000 [c6UA] (match get_weekly_totals_by_timeclock_id c6Fetch 5 20000 1000
      with | .ok w => w | .error _ => fun _ => none) c6Out rfl rfl rfl
  obtain ⟨ua, hua, h1, _, _⟩ := h (c6Out.getD 0 emptyEmployee) (by decide)
  have hua' : ua = c6UA := by simpa using hua
  subst hua'
  exact h1 ⟨⟨some 200, none⟩, by decide, by decide⟩

/-! ### Claim C7: ordering of the output -/

/-- C7: the output is the stable descending sort on the internal
`_segmentSecs` key, stripped of that key: the sorted list is pairwise
descending on the key; an employee's key is the current-open-segment elapsed
seconds and `0` exactly when no open segment exists; and the emitted snapshot
does not depend on the key (two full records agreeing on every emitted field
strip to the same snapshot). -/
theorem output_sorted_desc_by_segment_secs
    (fetch : Int → Int → Except FetchError (List UserDayActivity))
    (user_map : Nat → Option String) (fmt_time : Int → String)
    (clock_id date now_ts_weekly now_ts : Int)
    (activities : List UserDayActivity) (weekly : Nat → Option WeeklyEntry)
    (out : List Employee)
    (hact : fetch clock_id date = .ok activities)
    (hweek : get_weekly_totals_by_timeclock_id fetch clock_id date now_ts_weekly
        = .ok weekly)
    (hout : get_employee_status_by_timeclock_id fetch user_map fmt_time true clock_id
        date now_ts_weekly now_ts = .ok out) :
    out = (sortEmployees ((activities.filter (fun ua => !ua.shifts.isEmpty)).map
        (buildEmployee user_map fmt_time weekly now_ts))).map stripSegmentSecs
    ∧ (sortEmployees ((activities.filter (fun ua => !ua.shifts.isEmpty)).map
        (buildEmployee user_map fmt_time weekly now_ts))).Pairwise
        (fun a b => b.segmentSecs ≤ a.segmentSecs)
    ∧ (∀ ua, (buildEmployee user_map fmt_time weekly now_ts ua).segmentSecs
        = if truthy (accumulateShifts now_ts ua.shifts).2 then
            now_ts - (accumulateShifts now_ts ua.shifts).2.getD 0
          else 0)
    ∧ (∀ ua, ¬(∃ sh ∈ ua.shifts, isOpenShift sh = true)
        → (buildEmployee user_map fmt_time weekly now_ts ua).segmentSecs = 0)
    ∧ (∀ f g : EmployeeFull, f.name = g.name
        → f.currentSegmentStart = g.currentSegmentStart
        → f.currentTimeOnClock = g.currentTimeOnClock
        → f.totalTimeOnClock = g.totalTimeOnClock
        → f.otToday = g.otToday
        → f.breakTaken = g.breakTaken
        → f.status = g.status
        → f.lunchStatus = g.lunchStatus
        → f.lunchClass = g.lunchClass
        → stripSegmentSecs f = stripSegmentSecs g) := by
  have heq := engine_ok_eq fetch user_map fmt_time clock_id date now_ts_weekly now_ts
    activities weekly hact hweek
  rw [hout] at heq
  refine ⟨(Except.ok.injEq _ _).mp heq, sortEmployees_pairwise _, ?_, ?_, ?_⟩
  · intro ua
    exact buildEmployee_segmentSecs user_map fmt_time weekly now_ts ua
  · intro ua hno
    rw [buildEmployee_segmentSecs]
    have hfalse : truthy (accumulateShifts now_ts ua.shifts).2 = false := by
      rw [accumulateShifts_snd]
      cases ht : truthy (lastOpenStart ua.shifts) with
      | false => rfl
      | true => exact absurd ((truthy_lastOpenStart_iff ua.shifts).mp ht) hno
    rw [if_neg (by simp [hfalse])]
  · intro f g h1 h2 h3 h4 h5 h6 h7 h8 h9
    cases f
    cases g
    dsimp only at h1 h2 h3 h4 h5 h6 h7 h8 h9
    subst h1; subst h2; subst h3; subst h4; subst h5; subst h6; subst h7
    subst h8; subst h9
    rfl

/-- The spec's sorting scenario: open-segment elapsed seconds 300, 0 and 900,
plus one employee with no open segment. -/
def c7A : UserDayActivity := ⟨1, [⟨some 700, none⟩], []⟩

def c7B : UserDayActivity := ⟨2, [⟨some 1000, none⟩], []⟩

def c7C : UserDayActivity := ⟨3, [⟨some 100, none⟩], []⟩

def c7D : UserDayActivity := ⟨4, [⟨some 10, some 20⟩], []⟩

def c7Fetch : Int → Int → Except FetchError (List UserDayActivity) :=
  fun _ _ => .ok [c7A, c7B, c7C, c7D]

def c7Weekly : Nat → Option WeeklyEntry :=
  match get_weekly_totals_by_timeclock_id c7Fetch 5 20000 1000 with
  | .ok w => w
  | .error _ => fun _ => none

def c7Out : List Employee :=
  match get_employee_status_by_timeclock_id c7Fetch fixUserMap fixFmtTime true 5
      20000 1000 1000 with
  | .ok l => l
  | .error _ => []

/-- Closed witness for C7 at the spec's sorting scenario. -/
theorem output_sorted_desc_by_segment_secs_witness :
    c7Out = (sortEmployees ((([c7A, c7B, c7C, c7D]).filter
        (fun ua => !ua.shifts.isEmpty)).map
        (buildEmployee fixUserMap fixFmtTime c7Weekly 1000))).map stripSegmentSecs
    ∧ (sortEmployees ((([c7A, c7B, c7C, c7D]).filter
        (fun ua => !ua.shifts.isEmpty)).map
        (buildEmployee fixUserMap fixFmtTime c7Weekly 1000))).Pairwise
        (fun a b => b.segmentSecs ≤ a.segmentSecs)
    ∧ (buildEmployee fixUserMap fixFmtTime c7Weekly 1000 c7D).segmentSecs = 0 := by
  have h := output_sorted_desc_by_segment_secs c7Fetch fixUserMap fixFmtTime 5 20000
    1000 1000 [c7A, c7B, c7C, c7D] c7Weekly c7Out rfl rfl rfl
  exact ⟨h.1, h.2.1, h.2.2.2.1 c7D (by decide)⟩

/-! ### Claim C8: users with no shifts are excluded -/

/-- C8: every emitted snapshot comes from a user with a nonempty shift list,
and the output length equals the number of users with nonempty shifts — so a
user whose shift list is empty never contributes a snapshot, whatever breaks
it has and whatever the weekly rollup contains. -/
theorem zero_shift_users_excluded
    (fetch : Int → Int → Except FetchError (List UserDayActivity))
    (user_map : Nat → Option String) (fmt_time : Int → String)
    (clock_id date now_ts_weekly now_ts : Int)
    (activities : List UserDayActivity) (weekly : Nat → Option WeeklyEntry)
    (out : List Employee)
    (hact : fetch clock_id date = .ok activities)
    (hweek : get_weekly_totals_by_timeclock_id fetch clock_id date now_ts_weekly
        = .ok weekly)
    (hout : get_employee_status_by_timeclock_id fetch user_map fmt_time true clock_id
        date now_ts_weekly now_ts = .ok out) :
    (∀ s ∈ out, ∃ ua ∈ activities, ua.shifts ≠ []
      ∧ s = stripSegmentSecs (buildEmployee user_map fmt_time weekly now_ts ua))
    ∧ out.length = (activities.filter (fun ua => !ua.shifts.isEmpty)).length := by
  constructor
  · intro s hs
    exact (mem_engine_out fetch user_map fmt_time clock_id date now_ts_weekly now_ts
      activities weekly out hact hweek hout s).mp hs
  · have heq := engine_ok_eq fetch user_map fmt_time clock_id date now_ts_weekly
      now_ts activities weekly hact hweek
    rw [hout] at heq
    rw [(Except.ok.injEq _ _).mp heq]
    rw [List.length_map, (sortEmployees_perm _).length_eq, List.length_map]

/-- A user with breaks but no shifts, next to a normal user. -/
def c8E : UserDayActivity := ⟨9, [], [⟨some 5, some 6⟩]⟩

def c8F : UserDayActivity := ⟨2, [⟨some 10, some 20⟩], []⟩

def c8Fetch : Int → Int → Except FetchError (List UserDayActivity) :=
  fun _ _ => .ok [c8E, c8F]

def c8Out : List Employee :=
  match get_employee_status_by_timeclock_id c8Fetch fixUserMap fixFmtTime true 5
      20000 1000 1000 with
  | .ok l => l
  | .error _ => []

/-- Closed witness for C8: with one zero-shift user and one normal user the
output holds exactly one snapshot. -/
theorem zero_shift_users_excluded_witness :
    c8Out.length = ([c8E, c8F].filter (fun ua => !ua.shifts.isEmpty)).length := by
  have h := zero_shift_users_excluded c8Fetch fixUserMap fixFmtTime 5 20000 1000 1000
    [c8E, c8F] (match get_weekly_totals_by_timeclock_id c8Fetch 5 20000 1000 with
      | .ok w => w | .error _ => fun _ => none) c8Out rfl rfl rfl
  exact h.2

/-! ### Claim C4: Monday-anchored 7-day aggregation -/

/-- C4: the weekly aggregation runs over exactly the 7 consecutive dates of
the Monday-anchored week containing the reference date (`week_start` has
weekday 0 and the reference date lies in `[week_start, week_start + 7)`), and
for every user in its output the weekly total equals the sum of that user's
stored per-date net seconds over those 7 dates — no other date key is ever
populated. Assumes each fetched day lists each user at most once, as the
per-user shape of `timeActivitiesByUsers` guarantees. -/
theorem weekly_totals_monday_anchored_sum
    (fetch : Int → Int → Except FetchError (List UserDayActivity))
    (clock_id week_ending now_ts : Int) (weekly : Nat → Option WeeklyEntry)
    (hnodup : ∀ d uas, fetch clock_id d = .ok uas
        → (uas.map UserDayActivity.userId).Nodup)
    (hok : get_weekly_totals_by_timeclock_id fetch clock_id week_ending now_ts
        = .ok weekly) :
    (weekday (week_ending - weekday week_ending) = 0
      ∧ week_ending - weekday week_ending ≤ week_ending
      ∧ week_ending < week_ending - weekday week_ending + 7)
    ∧ ∀ uid e, weekly uid = some e →
        e.weeklySecs = ((([0, 1, 2, 3, 4, 5, 6] : List Int).map
            (fun i => week_ending - weekday week_ending + i)).map
              (fun d => (e.dailySecs d).getD 0)).sum
        ∧ ∀ d, d ∉ ([0, 1, 2, 3, 4, 5, 6] : List Int).map
            (fun i => week_ending - weekday week_ending + i)
            → e.dailySecs d = none := by
  refine ⟨week_start_facts week_ending, fun uid e he => ?_⟩
  obtain ⟨h1, h2, _⟩ := get_weekly_ok_props fetch clock_id week_ending now_ts weekly
    hnodup hok uid e he
  exact ⟨h1, h2⟩

/-- One user with an 8-hour closed shift, fetched for every day. -/
def c4UA : UserDayActivity := ⟨7, [⟨some 100, some (100 + 8*3600)⟩], []⟩

def c4Fetch : Int → Int → Except FetchError (List UserDayActivity) :=
  fun _ _ => .ok [c4UA]

def c4Weekly : Nat → Option WeeklyEntry :=
  match get_weekly_totals_by_timeclock_id c4Fetch 5 10 1000 with
  | .ok w => w
  | .error _ => fun _ => none

def c4Entry : WeeklyEntry := (c4Weekly 7).getD (finalizeEntry emptyEntry)

/-- Closed witness for C4 at reference date 10 (a Saturday, so the week runs
over days 4..10 anchored on Monday day 4). -/
theorem weekly_totals_monday_anchored_sum_witness :
    (weekday ((10 : Int) - weekday 10) = 0
      ∧ (10 : Int) - weekday 10 ≤ 10
      ∧ (10 : Int) < 10 - weekday 10 + 7)
    ∧ c4Entry.weeklySecs = ((([0, 1, 2, 3, 4, 5, 6] : List Int).map
        (fun i => (10 : Int) - weekday 10 + i)).map
          (fun d => (c4Entry.dailySecs d).getD 0)).sum := by
  have h := weekly_totals_monday_anchored_sum c4Fetch 5 10 1000 c4Weekly
    (by
      intro d uas hf
      have huas := (Except.ok.injEq _ _).mp hf
      rw [← huas]
      decide)
    rfl
  exact ⟨h.1, (h.2 7 c4Entry rfl).1⟩

/-! ### Claim C5: net worked seconds are clamped at zero -/

/-- C5: in both engines, net worked seconds for a user-day equal
`max(0, total shift seconds - total completed-break seconds)` and are never
negative, however large the completed-break seconds: the weekly net per
user-day is the clamped difference; the daily snapshot's total-on-clock is the
formatted clamped difference; the daily and weekly folds compute identical
totals and break sums; and everything the weekly aggregator stores is
nonnegative. -/
theorem net_seconds_clamped_nonneg
    (fetch : Int → Int → Except FetchError (List UserDayActivity))
    (clock_id week_ending now_ts_weekly : Int) (weekly : Nat → Option WeeklyEntry)
    (hok : get_weekly_totals_by_timeclock_id fetch clock_id week_ending now_ts_weekly
        = .ok weekly) :
    (∀ now_ts ua, weeklyNet now_ts ua
        = max 0 (weeklyShiftSecs now_ts ua.shifts - completedBreakSecs ua.manualBreaks)
      ∧ 0 ≤ weeklyNet now_ts ua)
    ∧ (∀ (um : Nat → Option String) (ft : Int → String)
        (w : Nat → Option WeeklyEntry) (now_ts : Int) (ua : UserDayActivity),
        (buildEmployee um ft w now_ts ua).totalTimeOnClock
          = format_duration (max 0 ((accumulateShifts now_ts ua.shifts).1
              - (accumulateBreaks ua.manualBreaks).1))
        ∧ 0 ≤ max 0 ((accumulateShifts now_ts ua.shifts).1
              - (accumulateBreaks ua.manualBreaks).1))
    ∧ (∀ breaks, (accumulateBreaks breaks).1 = completedBreakSecs breaks)
    ∧ (∀ now_ts shifts, (accumulateShifts now_ts shifts).1
        = weeklyShiftSecs now_ts shifts)
    ∧ (∀ uid e, weekly uid = some e →
        0 ≤ e.weeklySecs ∧ ∀ d v, e.dailySecs d = some v → 0 ≤ v) := by
  refine ⟨?_, ?_, accumulateBreaks_fst, accumulateShifts_fst, ?_⟩
  · intro now_ts ua
    exact ⟨rfl, le_max_left 0 _⟩
  · intro um ft w now_ts ua
    exact ⟨buildEmployee_totalTimeOnClock um ft w now_ts ua, le_max_left 0 _⟩
  · exact get_weekly_ok_nn fetch clock_id week_ending now_ts_weekly weekly hok

/-- A user-day whose completed break is far longer than its shift. -/
def c5UA : UserDayActivity := ⟨7, [⟨some 100, some 200⟩], [⟨some 100, some 99999⟩]⟩

def c5Fetch : Int → Int → Except FetchError (List UserDayActivity) :=
  fun _ _ => .ok [c5UA]

def c5Weekly : Nat → Option WeeklyEntry :=
  match get_weekly_totals_by_timeclock_id c5Fetch 5 10 1000 with
  | .ok w => w
  | .error _ => fun _ => none

def c5Entry : WeeklyEntry := (c5Weekly 7).getD (finalizeEntry emptyEntry)

/-- Closed witness for C5: with a 100-second shift and a 99899-second
completed break, the net is clamped to zero everywhere. -/
theorem net_seconds_clamped_nonneg_witness :
    (weeklyNet 1000 c5UA
        = max 0 (weeklyShiftSecs 1000 c5UA.shifts - completedBreakSecs c5UA.manualBreaks)
      ∧ 0 ≤ weeklyNet 1000 c5UA)
    ∧ (accumulateBreaks c5UA.manualBreaks).1 = completedBreakSecs c5UA.manualBreaks
    ∧ (accumulateShifts 1000 c5UA.shifts).1 = weeklyShiftSecs 1000 c5UA.shifts
    ∧ (0 ≤ c5Entry.weeklySecs
        ∧ ∀ d v, c5Entry.dailySecs d = some v → 0 ≤ v) := by
  have h := net_seconds_clamped_nonneg c5Fetch 5 10 1000 c5Weekly rfl
  exact ⟨h.1 1000 c5UA, h.2.2.1 c5UA.manualBreaks, h.2.2.2.1 1000 c5UA.shifts,
    h.2.2.2.2 7 c5Entry rfl⟩

/-! ### Claim C9: failure propagation -/

theorem get_weekly_error_of_loop
    (fetch : Int → Int → Except FetchError (List UserDayActivity))
    (clock_id week_ending now_ts : Int) (e' : FetchError)
    (hE : weeklyLoop fetch clock_id now_ts (week_ending - weekday week_ending)
        [0, 1, 2, 3, 4, 5, 6] (fun _ => none) = .error e') :
    get_weekly_totals_by_timeclock_id fetch clock_id week_ending now_ts
      = .error e' := by
  show (match weeklyLoop fetch clock_id now_ts (week_ending - weekday week_ending)
      [0, 1, 2, 3, 4, 5, 6] (fun _ => none) with
    | Except.error e => (Except.error e : Except FetchError (Nat → Option WeeklyEntry))
    | Except.ok summary => Except.ok (fun uid => (summary uid).map finalizeEntry))
      = Except.error e'
  rw [hE]

/-- C9: if any one of the 7 daily queries of the weekly aggregation fails, the
whole aggregation fails with a fetch error (no partial week); and if the
weekly rollup fails inside the daily engine (run inside business hours), the
whole daily computation fails rather than producing a partial result. -/
theorem failure_propagation
    (fetch : Int → Int → Except FetchError (List UserDayActivity))
    (user_map : Nat → Option String) (fmt_time : Int → String)
    (clock_id week_ending date now_ts_weekly now_ts : Int) :
    ((∃ i ∈ ([0, 1, 2, 3, 4, 5, 6] : List Int), ∃ e,
        fetch clock_id (week_ending - weekday week_ending + i) = .error e)
      → ∃ e', get_weekly_totals_by_timeclock_id fetch clock_id week_ending now_ts_weekly
          = .error e')
    ∧ ((∃ e, get_weekly_totals_by_timeclock_id fetch clock_id date now_ts_weekly
          = .error e)
      → ∃ e', get_employee_status_by_timeclock_id fetch user_map fmt_time true
          clock_id date now_ts_weekly now_ts = .error e') := by
  constructor
  · intro hfail
    obtain ⟨e', hE⟩ := weeklyLoop_error fetch clock_id now_ts_weekly
      (week_ending - weekday week_ending) [0, 1, 2, 3, 4, 5, 6] (fun _ => none) hfail
    exact ⟨e', get_weekly_error_of_loop fetch clock_id week_ending now_ts_weekly e' hE⟩
  · intro ⟨e, he⟩
    cases hf : fetch clock_id date with
    | error e0 =>
      refine ⟨e0, ?_⟩
      unfold get_employee_status_by_timeclock_id
      rw [hf]
      simp
    | ok acts =>
      refine ⟨e, ?_⟩
      unfold get_employee_status_by_timeclock_id
      rw [hf, he]
      simp

/-- A fetch that fails on day 5 (the Tuesday of the week of day 4). -/
def c9Fetch : Int → Int → Except FetchError (List UserDayActivity) :=
  fun _ d => if d = 5 then .error ⟨"boom"⟩ else .ok []

/-- Closed witness for C9: one failing day fails the weekly aggregation, and
that failing rollup fails the daily computation. -/
theorem failure_propagation_witness :
    (∃ e', get_weekly_totals_by_timeclock_id c9Fetch 5 4 1000 = .error e')
    ∧ (∃ e', get_employee_status_by_timeclock_id c9Fetch fixUserMap fixFmtTime true
        5 4 1000 1000 = .error e') := by
  have h := failure_propagation c9Fetch fixUserMap fixFmtTime 5 4 4 1000 1000
  have hweekly := h.1 ⟨1, by decide, ⟨"boom"⟩, by rfl⟩
  exact ⟨hweekly, h.2 hweekly⟩
